import Mathlib

/-!
Verification of the GARCH model lifecycle manager (src/model.py, class GarchModel).

The embedding below mirrors the source file:
* wrangle_data: read the stored rows, sort ascending by date, take percentage
  changes of the close column times 100, and drop the undefined first value;
* fit: attach a fitted conditional-variance model and its aic/bic metrics;
* predict_volatility and clean_prediction: take an H-step variance forecast,
  apply elementwise power 0.5, generate H business dates starting one calendar
  day after the last observation, and key the values by the dates rendered in
  ISO-8601 form;
* dump and load: persist the active model under a timestamp-prefixed file name
  and re-load the last file (after an ascending sort) whose name the glob
  pattern matches.

Dates are modelled as day counts since 1970-01-01 (a Thursday); numeric values
are rationals, and the floating square root is passed in as an explicit
function parameter, since the estimator numerics are an external capability.
-/

namespace Garch

/-! ### Calendar model (business-day walk and ISO-8601 rendering) -/

/-- Weekday of a day count since 1970-01-01, with 0 = Sunday, ..., 6 = Saturday.
Day 0 (1970-01-01) was a Thursday, hence the offset 4. -/
def weekday (d : Nat) : Nat := (d + 4) % 7

/-- Monday through Friday, as used by the business-day range generator. -/
def isBusinessDay (d : Nat) : Bool :=
  decide (1 ≤ weekday d) && decide (weekday d ≤ 5)

/-- Roll a date forward to the next business day (identity on business days).
At most two consecutive days are non-business days, so two steps suffice. -/
def rollForward (d : Nat) : Nat :=
  if isBusinessDay d then d
  else if isBusinessDay (d + 1) then d + 1
  else d + 2

/-- The business-day range generator: n consecutive business days starting at
the first business day on or after start. -/
def bdateRange (start : Nat) : Nat → List Nat
  | 0 => []
  | n + 1 => rollForward start :: bdateRange (rollForward start + 1) n

/-- Gregorian calendar date (year, month, day) of a day count since 1970-01-01,
by the standard civil-from-days conversion. -/
def civilFromDays (z : Nat) : Nat × Nat × Nat :=
  let zs := z + 719468
  let era := zs / 146097
  let doe := zs % 146097
  let yoe := (doe - doe / 1460 + doe / 36524 - doe / 146096) / 365
  let y := yoe + era * 400
  let doy := doe - (365 * yoe + yoe / 4 - yoe / 100)
  let mp := (5 * doy + 2) / 153
  let dd := doy - (153 * mp + 2) / 5 + 1
  let mm := if mp < 10 then mp + 3 else mp - 9
  (if mm ≤ 2 then y + 1 else y, mm, dd)

/-- Zero-pad a number to two digits. -/
def pad2 (n : Nat) : String := if n < 10 then "0" ++ toString n else toString n

/-- Zero-pad a number to four digits. -/
def pad4 (n : Nat) : String :=
  if n < 10 then "000" ++ toString n
  else if n < 100 then "00" ++ toString n
  else if n < 1000 then "0" ++ toString n
  else toString n

/-- Render a civil date in ISO-8601 calendar-date form YYYY-MM-DD. -/
def isoDate : Nat × Nat × Nat → String
  | (y, m, d) => pad4 y ++ "-" ++ pad2 m ++ "-" ++ pad2 d

/-- The string returned by the isoformat method of a midnight timestamp:
the calendar date followed by the time of day T00:00:00. -/
def isoformatMidnight (d : Nat) : String :=
  isoDate (civilFromDays d) ++ "T00:00:00"

/-- Checker for the strict ISO-8601 calendar-date form YYYY-MM-DD (written
from the specification wording, to compare with what the code produces):
exactly ten characters, digits and hyphens in place, month and day in range. -/
def isISO8601CalendarDate (s : String) : Bool :=
  match s.data with
  | [y1, y2, y3, y4, s1, m1, m2, s2, d1, d2] =>
      y1.isDigit && y2.isDigit && y3.isDigit && y4.isDigit &&
      (s1 == '-') && (s2 == '-') &&
      m1.isDigit && m2.isDigit && d1.isDigit && d2.isDigit &&
      (let mo := (m1.toNat - 48) * 10 + (m2.toNat - 48)
       let da := (d1.toNat - 48) * 10 + (d2.toNat - 48)
       decide (1 ≤ mo) && decide (mo ≤ 12) && decide (1 ≤ da) && decide (da ≤ 31))
  | _ => false

/-! ### The fitted model and the forecast pipeline -/

/-- A fitted conditional-variance model, kept opaque: the date of the last
observation it was fitted on (the forecast frame index), its information
criteria, and its h-step-ahead forecast variances. -/
structure FittedModel where
  lastDate : Nat
  aic : ℚ
  bic : ℚ
  variance : Nat → ℚ

/-- The single row of the variance frame of an H-step forecast: the values of
columns h.1 through h.H, flattened left to right. -/
def forecastVariances (m : FittedModel) (horizon : Nat) : List ℚ :=
  (List.range horizon).map fun i => m.variance (i + 1)

/-- Method __clean_prediction: from a forecast frame (index date, value row),
compute the start date one calendar day after the frame index, generate as
many business days as the frame has columns, render them in isoformat, apply
elementwise power 0.5 to the values, and pair indices with values in order.
The sq parameter is the elementwise floating power 0.5. -/
def clean_prediction (sq : ℚ → ℚ) (prediction : Nat × List ℚ) : List (String × ℚ) :=
  let start := prediction.1 + 1
  let prediction_dates := bdateRange start prediction.2.length
  let prediction_index := prediction_dates.map isoformatMidnight
  let data := prediction.2.map sq
  prediction_index.zip data

/-- Method predict_volatility: take the variance frame of an H-step forecast,
apply elementwise power 0.5, and pass the result to __clean_prediction. -/
def predict_volatility (sq : ℚ → ℚ) (m : FittedModel) (horizon : Nat) :
    List (String × ℚ) :=
  clean_prediction sq (m.lastDate, (forecastVariances m horizon).map sq)

/-- A square-root oracle for concrete scenarios: the floating power 0.5 is
exact on these perfect squares. -/
def qsqrt (x : ℚ) : ℚ :=
  if x = 16 then 4
  else if x = 81 then 9
  else if x = 4 then 2
  else if x = 9 then 3
  else 0

/-! ### The returns wrangler -/

/-- One raw price row: its date (the frame index) and its close price.
The other OHLC columns are not used downstream. -/
structure Row where
  date : Nat
  close : ℚ

/-- Percentage change of a column against the previous entry, after the head:
current over previous minus one. -/
def pctChangeGo (prev : ℚ) : List ℚ → List (Option ℚ)
  | [] => []
  | c :: cs => some (c / prev - 1) :: pctChangeGo c cs

/-- The pct_change of a column: undefined (missing) at the first entry,
current over previous minus one afterwards. -/
def pctChange : List ℚ → List (Option ℚ)
  | [] => []
  | c :: cs => none :: pctChangeGo c cs

/-- The return column: pct_change of the close column times 100. -/
def returnColumn (closes : List ℚ) : List (Option ℚ) :=
  (pctChange closes).map fun o => o.map fun r => r * 100

/-- Ascending comparison of rows by their date index. -/
def dateLe (a b : Row) : Prop := a.date ≤ b.date

instance : DecidableRel dateLe := fun a b => inferInstanceAs (Decidable (a.date ≤ b.date))

instance : IsTotal Row dateLe := ⟨fun a b => Nat.le_total a.date b.date⟩

instance : IsTrans Row dateLe := ⟨fun _ _ _ => Nat.le_trans⟩

/-- Core of wrangle_data on the rows read from the store: sort ascending by
the date index, attach the return column, and drop the missing first value,
keeping the date of every defined return. -/
def wrangle_core (rows : List Row) : List (Nat × ℚ) :=
  let df := List.insertionSort dateLe rows
  ((df.map Row.date).zip (returnColumn (df.map Row.close))).filterMap
    fun p => p.2.map fun r => (p.1, r)

/-- Modelled from the spec: SQLRepository.read_table (the storage collaborator,
whose code is not part of this file's source) returns up to limit rows for the
instrument, most recent first; the store itself is held ascending by date. -/
def read_table (store : List Row) (limit : Nat) : List Row :=
  store.reverse.take limit

/-- Method wrangle_data: read n_observations + 1 rows from the store and run
the cleaning transform on them. -/
def wrangle_data (store : List Row) (n_observations : Nat) : List (Nat × ℚ) :=
  wrangle_core (read_table store (n_observations + 1))

/-! ### The session object and the model archive -/

/-- The mutable attributes of a GarchModel session. Attributes that the
constructor never initializes are optional: reading them while absent is an
AttributeError in the source. -/
structure Session where
  ticker : String
  data : Option (List (Nat × ℚ))
  model : Option FittedModel
  aic : Option ℚ
  bic : Option ℚ

/-- The constructor: only the ticker (and the collaborator handles) are set;
data, model, aic and bic all start absent. -/
def init (ticker : String) : Session :=
  { ticker := ticker, data := none, model := none, aic := none, bic := none }

/-- Method fit: attach the model fitted by the estimator (an external
capability, passed in as the resulting artifact) and its aic/bic metrics. -/
def fit (fitted : FittedModel) (s : Session) : Session :=
  { s with model := some fitted, aic := some fitted.aic, bic := some fitted.bic }

/-- The archive directory: file names paired with the artifacts they hold. -/
abbrev Dir := List (String × FittedModel)

/-- Replace every colon by a hyphen, as the source does on the timestamp. -/
def hyphenate (s : String) : String :=
  ⟨s.data.map fun c => if c = ':' then '-' else c⟩

/-- The file name written by dump: the hyphenated timestamp, an underscore,
the ticker, and the fixed extension. -/
def dumpName (timestamp ticker : String) : String :=
  hyphenate timestamp ++ "_" ++ ticker ++ ".pkl"

/-- The message of the AttributeError raised on reading the absent model. -/
def attrErrModel : String := "AttributeError: no attribute model"

/-- Method dump: serialize the active model into the directory under the
timestamped name and return the name; reading the absent model attribute
raises before any file is created. -/
def dump (timestamp : String) (dir : Dir) (s : Session) :
    Dir × Except String String :=
  match s.model with
  | none => (dir, Except.error attrErrModel)
  | some m =>
      let filepath := dumpName timestamp s.ticker
      (dir ++ [(filepath, m)], Except.ok filepath)

/-- The glob pattern of load is the star, the ticker and the extension, so a
file name matches exactly when it ends with the ticker followed by .pkl: no
underscore is required by the pattern. -/
def matchesGlob (ticker fname : String) : Bool :=
  decide ((ticker ++ ".pkl").data <:+ fname.data)

/-- Strict lexicographic comparison of character lists by code point, the
order in which the source sorts the glob results. -/
def lexLt : List Char → List Char → Bool
  | [], [] => false
  | [], _ :: _ => true
  | _ :: _, [] => false
  | a :: as, b :: bs =>
      if a < b then true
      else if b < a then false
      else lexLt as bs

/-- Reflexive lexicographic comparison of file names. -/
def strLe (a b : String) : Bool := !(lexLt b.data a.data)

/-- Directory entries ordered by file name. -/
def nameLe (a b : String × FittedModel) : Prop := strLe a.1 b.1 = true

instance : DecidableRel nameLe :=
  fun a b => inferInstanceAs (Decidable (strLe a.1 b.1 = true))

/-- The entry load picks: sort the matching entries ascending by name and
take the last one, when it exists. -/
def selectedArtifact (ticker : String) (dir : Dir) : Option (String × FittedModel) :=
  (List.insertionSort nameLe (dir.filter fun e => matchesGlob ticker e.1)).getLast?

/-- The message of the error raised by load when no file matches. -/
def archiveErrMsg (ticker : String) : String :=
  "No model trained for " ++ ticker

/-- Method load: re-scan the directory, pick the last matching name in
ascending order and attach its artifact as the active model; when nothing
matches, raise (second component) and leave the session untouched. -/
def load (dir : Dir) (s : Session) : Session × Option String :=
  match selectedArtifact s.ticker dir with
  | some e => ({ s with model := some e.2 }, none)
  | none => (s, some (archiveErrMsg s.ticker))

/-- Method predict_volatility seen from the session: reading the absent model
attribute raises, otherwise the model-level pipeline runs. -/
def predictSession (sq : ℚ → ℚ) (s : Session) (horizon : Nat) :
    Except String (List (String × ℚ)) :=
  match s.model with
  | none => Except.error attrErrModel
  | some m => Except.ok (predict_volatility sq m horizon)

end Garch

namespace Garch

/-! ### Calendar lemmas -/

theorem isBusinessDay_rollForward (d : Nat) : isBusinessDay (rollForward d) = true := by
  unfold rollForward
  split_ifs with h1 h2
  · exact h1
  · exact h2
  · simp only [isBusinessDay, weekday, Bool.and_eq_true, decide_eq_true_eq] at h1 h2 ⊢
    omega

theorem le_rollForward (d : Nat) : d ≤ rollForward d := by
  unfold rollForward
  split_ifs <;> omega

theorem length_bdateRange : ∀ (n start : Nat), (bdateRange start n).length = n
  | 0, _ => rfl
  | n + 1, start => by
      simp only [bdateRange, List.length_cons, length_bdateRange n]

theorem mem_bdateRange_isBusinessDay :
    ∀ (n start d : Nat), d ∈ bdateRange start n → isBusinessDay d = true
  | 0, _, _, h => by simp [bdateRange] at h
  | n + 1, start, d, h => by
      rcases List.mem_cons.mp h with rfl | h2
      · exact isBusinessDay_rollForward start
      · exact mem_bdateRange_isBusinessDay n _ d h2

theorem mem_bdateRange_ge :
    ∀ (n start d : Nat), d ∈ bdateRange start n → start ≤ d
  | 0, _, _, h => by simp [bdateRange] at h
  | n + 1, start, d, h => by
      rcases List.mem_cons.mp h with rfl | h2
      · exact le_rollForward start
      · have := mem_bdateRange_ge n (rollForward start + 1) d h2
        have := le_rollForward start
        omega

theorem chain'_bdateRange :
    ∀ (n start : Nat), List.Chain' (· < ·) (bdateRange start n)
  | 0, _ => List.chain'_nil
  | n + 1, start => by
      apply List.chain'_cons'.mpr
      refine ⟨?_, chain'_bdateRange n (rollForward start + 1)⟩
      intro y hy
      have hmem : y ∈ bdateRange (rollForward start + 1) n := List.mem_of_mem_head? hy
      have := mem_bdateRange_ge n (rollForward start + 1) y hmem
      omega

end Garch

namespace Garch

/-- A concrete fitted model whose forecast variance is 16 at every step. -/
def mVar16 : FittedModel := ⟨0, 0, 0, fun _ => 16⟩

/-- C4 (amended): the ForecastSeries of predict_volatility has exactly H
entries, its keys render, in order, the H business days generated from one
calendar day after the model's last observation date, those days all fall on
business days, and they are strictly increasing chronologically. -/
theorem predict_volatility_calendar (sq : ℚ → ℚ) (m : FittedModel) (H : Nat)
    (_hH : 1 ≤ H) :
    (predict_volatility sq m H).length = H ∧
    (predict_volatility sq m H).map Prod.fst =
      (bdateRange (m.lastDate + 1) H).map isoformatMidnight ∧
    (∀ d ∈ bdateRange (m.lastDate + 1) H, isBusinessDay d = true) ∧
    List.Chain' (· < ·) (bdateRange (m.lastDate + 1) H) := by
  have hlen : ((forecastVariances m H).map sq).length = H := by
    simp [forecastVariances]
  have hfv : (forecastVariances m H).length = H := by
    simp [forecastVariances]
  refine ⟨?_, ?_, ?_, ?_⟩
  · simp [predict_volatility, clean_prediction, length_bdateRange, hlen, hfv]
  · simp only [predict_volatility, clean_prediction, hlen]
    apply List.map_fst_zip
    simp [length_bdateRange, hlen, hfv]
  · exact fun d hd => mem_bdateRange_isBusinessDay H _ d hd
  · exact chain'_bdateRange H _

/-- C4 witness: the calendar theorem instantiated at a concrete model and
horizon five. -/
theorem predict_volatility_calendar_witness :
    (predict_volatility qsqrt mVar16 5).length = 5 ∧
    (predict_volatility qsqrt mVar16 5).map Prod.fst =
      (bdateRange 1 5).map isoformatMidnight :=
  ⟨(predict_volatility_calendar qsqrt mVar16 5 (by decide)).1,
   (predict_volatility_calendar qsqrt mVar16 5 (by decide)).2.1⟩

/-- C4 counterexample: the key emitted for the first forecast step is the
isoformat of a midnight timestamp, carrying a time of day, and is therefore
not in strict ISO-8601 calendar-date format (its date component alone would
be). -/
theorem predict_keys_are_midnight_timestamps :
    (predict_volatility qsqrt mVar16 1).map Prod.fst = ["1970-01-02T00:00:00"] ∧
    isISO8601CalendarDate "1970-01-02T00:00:00" = false ∧
    isISO8601CalendarDate "1970-01-02" = true :=
  ⟨by decide, by decide, by decide⟩

/-- C1: the value returned for each forecast step is the square root applied
twice to the forecast variance: once by predict_volatility on the variance
frame and once more by __clean_prediction on the already rooted values. With
variance 16 the returned value is 2, not the claimed sqrt 16 = 4. -/
theorem predict_volatility_sqrt_twice (sq : ℚ → ℚ)
    (h16 : sq 16 = 4) (h4 : sq 4 = 2) :
    (predict_volatility sq mVar16 1).map Prod.snd = [sq (sq 16)] ∧
    (predict_volatility sq mVar16 1).map Prod.snd = [2] ∧
    sq 16 ≠ 2 := by
  refine ⟨?_, ?_, ?_⟩
  · simp [predict_volatility, clean_prediction, forecastVariances, mVar16,
      List.range_succ, bdateRange]
  · simp [predict_volatility, clean_prediction, forecastVariances, mVar16,
      List.range_succ, bdateRange, h16, h4]
  · rw [h16]; norm_num

/-- C1 witness: the double application evaluated with a concrete square-root
oracle that is exact on the perfect squares 16 and 4. -/
theorem predict_volatility_sqrt_twice_witness :
    qsqrt 16 = 4 ∧ qsqrt 4 = 2 ∧
    (predict_volatility qsqrt mVar16 1).map Prod.snd = [2] ∧ qsqrt 16 ≠ 2 :=
  ⟨by decide, by decide,
   (predict_volatility_sqrt_twice qsqrt (by decide) (by decide)).2.1,
   (predict_volatility_sqrt_twice qsqrt (by decide) (by decide)).2.2⟩

end Garch

namespace Garch

/-! ### Wrangler lemmas -/

theorem wrangle_go_eq :
    ∀ (rest : List Row) (prev : Row),
      ((rest.map Row.date).zip ((pctChangeGo prev.close (rest.map Row.close)).map
          fun o => o.map fun r => r * 100)).filterMap
        (fun p => p.2.map fun r => (p.1, r))
      = (rest.zip (prev :: rest)).map
          fun p => (p.1.date, (p.1.close / p.2.close - 1) * 100)
  | [], _ => by simp
  | r :: t, prev => by
      simp only [List.map_cons, pctChangeGo, Option.map_some', List.zip_cons_cons,
        List.filterMap_cons, List.map_cons]
      rw [wrangle_go_eq t r]

theorem wrangle_body_length (l : List Row) :
    (((l.map Row.date).zip (returnColumn (l.map Row.close))).filterMap
        (fun p => p.2.map fun r => (p.1, r))).length = l.length - 1 := by
  cases l with
  | nil => simp [returnColumn, pctChange]
  | cons r t =>
      simp only [returnColumn, pctChange, List.map_cons, Option.map_none',
        List.zip_cons_cons, List.filterMap_cons]
      rw [wrangle_go_eq t r]
      simp [List.length_zip]

theorem wrangle_core_length (rows : List Row) :
    (wrangle_core rows).length = rows.length - 1 := by
  unfold wrangle_core
  rw [wrangle_body_length]
  rw [(List.perm_insertionSort dateLe rows).length_eq]

theorem wrangle_core_eq_of_sorted (rows : List Row)
    (hsort : List.Pairwise (fun a b : Row => a.date < b.date) rows) :
    wrangle_core rows
      = ((rows.drop 1).zip rows).map
          fun p => (p.1.date, (p.1.close / p.2.close - 1) * 100) := by
  have hs : List.Sorted dateLe rows := hsort.imp fun h => Nat.le_of_lt h
  unfold wrangle_core
  rw [List.Sorted.insertionSort_eq hs]
  cases rows with
  | nil => simp [returnColumn, pctChange]
  | cons r t =>
      simp only [returnColumn, pctChange, List.map_cons, Option.map_none',
        List.zip_cons_cons, List.filterMap_cons]
      rw [wrangle_go_eq t r]
      simp

/-- C3: on at least two rows already sorted strictly ascending by date with
positive closes, the working series pairs the date of each row after the
first with 100 times (close of that row over the previous close minus one);
its length is one less than the row count and its dates stay strictly
ascending. -/
theorem wrangle_core_returns (rows : List Row) (_h2 : 2 ≤ rows.length)
    (hsort : List.Pairwise (fun a b : Row => a.date < b.date) rows)
    (_hpos : ∀ r ∈ rows, 0 < r.close) :
    wrangle_core rows = ((rows.drop 1).zip rows).map
        (fun p => (p.1.date, 100 * (p.1.close / p.2.close - 1))) ∧
    (wrangle_core rows).length = rows.length - 1 ∧
    List.Pairwise (· < ·) ((wrangle_core rows).map Prod.fst) := by
  have heq := wrangle_core_eq_of_sorted rows hsort
  have hmain : wrangle_core rows = ((rows.drop 1).zip rows).map
      (fun p => (p.1.date, 100 * (p.1.close / p.2.close - 1))) := by
    rw [heq]
    exact List.map_congr_left fun p _ => by rw [mul_comm]
  refine ⟨hmain, wrangle_core_length rows, ?_⟩
  rw [hmain, List.map_map]
  have hfst : (((rows.drop 1).zip rows).map
      ((Prod.fst ∘ fun p : Row × Row => (p.1.date, 100 * (p.1.close / p.2.close - 1))))) =
      (rows.drop 1).map Row.date := by
    have : (Prod.fst ∘ fun p : Row × Row => (p.1.date, 100 * (p.1.close / p.2.close - 1)))
        = Row.date ∘ Prod.fst := rfl
    rw [this, ← List.map_map]
    rw [List.map_fst_zip _ _ (by simp [List.length_drop])]
  rw [hfst]
  exact ((hsort.sublist (List.drop_sublist 1 rows))).map Row.date fun _ _ h => h

/-- Concrete raw rows for the wrangler scenarios. -/
def rowsW : List Row := [⟨0, 100⟩, ⟨1, 101⟩, ⟨2, 99⟩]

/-- C3 witness: the wrangler theorem instantiated at three concrete rows. -/
theorem wrangle_core_returns_witness :
    wrangle_core rowsW = ((rowsW.drop 1).zip rowsW).map
        (fun p => (p.1.date, 100 * (p.1.close / p.2.close - 1))) ∧
    (wrangle_core rowsW).length = 2 :=
  ⟨(wrangle_core_returns rowsW (by decide) (by decide) (by decide)).1,
   (wrangle_core_returns rowsW (by decide) (by decide) (by decide)).2.1⟩

/-- Concrete ascending store with three rows. -/
def storeW : List Row := [⟨0, 1⟩, ⟨1, 2⟩, ⟨2, 4⟩]

/-- C7 counterexample: with three stored rows and a requested observation
count of two, wrangle_data reads three rows and produces two returns, not the
claimed two minus one. -/
theorem wrangle_length_not_count_minus_one :
    (wrangle_data storeW 2).length = 2 ∧ (2 : Nat) ≠ 2 - 1 :=
  ⟨by decide, by decide⟩

/-- C7 (amended): with sufficient stored history the ReturnsSeries of
wrangle_data has length equal to the requested observation count N itself:
N + 1 rows are read and the first undefined return is dropped. -/
theorem wrangle_data_length (store : List Row) (n : Nat)
    (hs : n + 1 ≤ store.length) :
    (wrangle_data store n).length = n := by
  unfold wrangle_data read_table
  rw [wrangle_core_length]
  simp only [List.length_take, List.length_reverse]
  omega

/-- C7 witness: the length theorem instantiated at the concrete store. -/
theorem wrangle_data_length_witness : (wrangle_data storeW 1).length = 1 :=
  wrangle_data_length storeW 1 (by decide)

end Garch

namespace Garch

/-! ### Lexicographic order lemmas for file names -/

theorem lexLt_irrefl : ∀ l : List Char, lexLt l l = false
  | [] => rfl
  | a :: as => by simp [lexLt, lexLt_irrefl as]

theorem lexLt_trans : ∀ (a b c : List Char),
    lexLt a b = true → lexLt b c = true → lexLt a c = true := by
  intro a
  induction a with
  | nil =>
    intro b c h1 h2
    cases b with
    | nil => simp [lexLt] at h1
    | cons y ys =>
      cases c with
      | nil => simp [lexLt] at h2
      | cons z zs => simp [lexLt]
  | cons x xs ih =>
    intro b c h1 h2
    cases b with
    | nil => simp [lexLt] at h1
    | cons y ys =>
      cases c with
      | nil => simp [lexLt] at h2
      | cons z zs =>
        simp only [lexLt] at h1 h2 ⊢
        by_cases hxy : x < y
        · by_cases hyz : y < z
          · simp [lt_trans hxy hyz]
          · by_cases hzy : z < y
            · simp [hyz, hzy] at h2
            · have hyzeq : y = z := le_antisymm (not_lt.mp hzy) (not_lt.mp hyz)
              subst hyzeq
              simp [hxy]
        · by_cases hyx : y < x
          · simp [hxy, hyx] at h1
          · have hxyeq : x = y := le_antisymm (not_lt.mp hyx) (not_lt.mp hxy)
            subst hxyeq
            simp only [lt_irrefl, if_false] at h1
            by_cases hxz : x < z
            · simp [hxz]
            · by_cases hzx : z < x
              · simp [hxz, hzx] at h2
              · simp only [if_neg hxz, if_neg hzx] at h2 ⊢
                exact ih ys zs h1 h2

theorem lexLt_asymm (a b : List Char) (h1 : lexLt a b = true)
    (h2 : lexLt b a = true) : False := by
  have := lexLt_trans a b a h1 h2
  rw [lexLt_irrefl] at this
  exact Bool.noConfusion this

theorem lexLt_eq_of_not (a : List Char) : ∀ (b : List Char),
    lexLt a b = false → lexLt b a = false → a = b := by
  induction a with
  | nil =>
    intro b h1 _
    cases b with
    | nil => rfl
    | cons y ys => simp [lexLt] at h1
  | cons x xs ih =>
    intro b h1 h2
    cases b with
    | nil => simp [lexLt] at h2
    | cons y ys =>
      simp only [lexLt] at h1 h2
      by_cases hxy : x < y
      · simp [hxy] at h1
      · by_cases hyx : y < x
        · simp [hxy, hyx] at h2
        · have hxyeq : x = y := le_antisymm (not_lt.mp hyx) (not_lt.mp hxy)
          subst hxyeq
          simp only [lt_irrefl, if_false] at h1 h2
          rw [ih ys h1 h2]

theorem nameLe_refl (a : String × FittedModel) : nameLe a a := by
  simp [nameLe, strLe, lexLt_irrefl]

instance : IsTotal (String × FittedModel) nameLe :=
  ⟨fun a b => by
    by_cases h : lexLt b.1.data a.1.data = true
    · right
      have : lexLt a.1.data b.1.data = false := by
        by_contra hc
        exact lexLt_asymm _ _ (Bool.of_not_eq_false hc) h
      simp [nameLe, strLe, this]
    · left
      simp [nameLe, strLe, Bool.of_not_eq_true h]⟩

instance : IsTrans (String × FittedModel) nameLe :=
  ⟨fun a b c h1 h2 => by
    simp only [nameLe, strLe, Bool.not_eq_true'] at h1 h2 ⊢
    by_contra hc
    have hca : lexLt c.1.data a.1.data = true := Bool.of_not_eq_false hc
    cases hbc : lexLt b.1.data c.1.data with
    | true =>
      have hba := lexLt_trans _ _ _ hbc hca
      exact Bool.noConfusion (h1.symm.trans hba)
    | false =>
      have hb : b.1.data = c.1.data := lexLt_eq_of_not _ _ hbc h2
      rw [← hb] at hca
      exact Bool.noConfusion (h1.symm.trans hca)⟩

end Garch

namespace Garch

/-! ### Selection of the most recent artifact -/

theorem pairwise_nameLe_getLast :
    ∀ (l : List (String × FittedModel)), List.Pairwise nameLe l → ∀ (h : l ≠ [])
      (x : String × FittedModel), x ∈ l → nameLe x (l.getLast h)
  | [], _, h, _, _ => absurd rfl h
  | [a], _, _, x, hx => by
      rw [List.mem_singleton.mp hx]
      exact nameLe_refl a
  | a :: b :: t, hp, h, x, hx => by
      rw [List.getLast_cons (l := b :: t) (by simp)]
      rcases List.mem_cons.mp hx with rfl | hx2
      · exact (List.pairwise_cons.mp hp).1 _ (List.getLast_mem (by simp))
      · exact pairwise_nameLe_getLast (b :: t) (List.pairwise_cons.mp hp).2
          (by simp) x hx2

theorem selected_isSome_of_matches (t : String) (dir : Dir)
    (h : dir.filter (fun e => matchesGlob t e.1) ≠ []) :
    (selectedArtifact t dir).isSome = true := by
  unfold selectedArtifact
  have hperm := List.perm_insertionSort nameLe (dir.filter fun e => matchesGlob t e.1)
  have hne : List.insertionSort nameLe (dir.filter fun e => matchesGlob t e.1) ≠ [] := by
    intro hnil
    apply h
    have := hperm.length_eq
    rw [hnil] at this
    exact List.length_eq_zero.mp this.symm
  rw [List.getLast?_eq_getLast _ hne]
  rfl

theorem selected_mem_max (t : String) (dir : Dir) (e : String × FittedModel)
    (h : selectedArtifact t dir = some e) :
    e ∈ dir.filter (fun x => matchesGlob t x.1) ∧
    ∀ f ∈ dir.filter (fun x => matchesGlob t x.1), nameLe f e := by
  unfold selectedArtifact at h
  have hperm := List.perm_insertionSort nameLe (dir.filter fun x => matchesGlob t x.1)
  have hsorted := List.sorted_insertionSort nameLe (dir.filter fun x => matchesGlob t x.1)
  have hne : List.insertionSort nameLe (dir.filter fun x => matchesGlob t x.1) ≠ [] := by
    intro hnil
    rw [hnil] at h
    exact Option.noConfusion h
  rw [List.getLast?_eq_getLast _ hne] at h
  have he : e = (List.insertionSort nameLe
      (dir.filter fun x => matchesGlob t x.1)).getLast hne := (Option.some.inj h).symm
  constructor
  · rw [he]
    exact hperm.mem_iff.mp (List.getLast_mem hne)
  · intro f hf
    rw [he]
    exact pairwise_nameLe_getLast _ hsorted hne f (hperm.mem_iff.mpr hf)

/-- C5: whenever at least one file name in the directory matches the glob
pattern of the ticker, load selects a matching entry whose name is greater or
equal to every matching name in lexicographic order (the last after an
ascending sort) and attaches its artifact as the active model. -/
theorem load_selects_latest (dir : Dir) (s : Session) :
    ((dir.filter fun e => matchesGlob s.ticker e.1) ≠ [] →
      (selectedArtifact s.ticker dir).isSome = true) ∧
    (∀ e, selectedArtifact s.ticker dir = some e →
      e ∈ dir.filter (fun x => matchesGlob s.ticker x.1) ∧
      (∀ f ∈ dir.filter (fun x => matchesGlob s.ticker x.1), nameLe f e) ∧
      load dir s = ({ s with model := some e.2 }, none)) := by
  refine ⟨selected_isSome_of_matches s.ticker dir, ?_⟩
  intro e he
  have hmm := selected_mem_max s.ticker dir e he
  refine ⟨hmm.1, hmm.2, ?_⟩
  unfold load
  rw [he]

/-- A second concrete fitted model, distinguishable from mVar16 by its
forecast. -/
def mVar81 : FittedModel := ⟨0, 0, 0, fun _ => 81⟩

/-- A concrete directory holding two artifacts for the ticker SFT. -/
def dirTwo : Dir :=
  [("2024-01-01T10-00-00_SFT.pkl", mVar16), ("2024-01-02T10-00-00_SFT.pkl", mVar81)]

/-- C5 witness: with two SFT artifacts the later file name is selected. -/
theorem load_selects_latest_witness :
    load dirTwo (init "SFT")
      = ({ init "SFT" with model := some mVar81 }, none) :=
  ((load_selects_latest dirTwo (init "SFT")).2
    ("2024-01-02T10-00-00_SFT.pkl", mVar81) rfl).2.2

/-- C6: load raises exactly when no file name in the directory matches the
glob pattern of the ticker; the error message names the ticker, and on the
error path the session, in particular its active model, is left unchanged. -/
theorem load_error_iff (dir : Dir) (s : Session) :
    ((dir.filter fun e => matchesGlob s.ticker e.1) = [] ↔
      load dir s = (s, some (archiveErrMsg s.ticker))) ∧
    ((load dir s).2.isSome = true → (load dir s).1 = s) := by
  constructor
  · constructor
    · intro h
      unfold load selectedArtifact
      rw [h]
      rfl
    · intro h
      by_cases hne : (dir.filter fun e => matchesGlob s.ticker e.1) = []
      · exact hne
      · exfalso
        have hsome := selected_isSome_of_matches s.ticker dir hne
        obtain ⟨e, he⟩ := Option.isSome_iff_exists.mp hsome
        unfold load at h
        rw [he] at h
        exact Option.noConfusion (congrArg Prod.snd h)
  · unfold load
    cases h : selectedArtifact s.ticker dir <;> simp

/-- C6 witness: the empty directory raises the error naming the ticker. -/
theorem load_error_iff_witness :
    load [] (init "SFT") = (init "SFT", some (archiveErrMsg "SFT")) :=
  (load_error_iff [] (init "SFT")).1.mp rfl

/-- C2: the glob pattern only requires the name to end with the ticker and
the extension, with no underscore separator, so load accepts and deserializes
an artifact of a different instrument whose identifier ends with the same
characters: with ticker SFT the sole MSFT file is matched and loaded instead
of raising, although no name ends in underscore SFT dot pkl. -/
theorem load_matches_foreign_ticker :
    matchesGlob "SFT" "2023-01-01T00-00-00_MSFT.pkl" = true ∧
    ¬ (("_SFT.pkl" : String).data <:+ ("2023-01-01T00-00-00_MSFT.pkl" : String).data) ∧
    load [("2023-01-01T00-00-00_MSFT.pkl", mVar81)] (init "SFT")
      = ({ init "SFT" with model := some mVar81 }, none) :=
  ⟨by decide, by decide, rfl⟩

end Garch

namespace Garch

/-! ### Round trip, fresh-session errors, and the load frame -/

theorem matchesGlob_dumpName (ts t : String) :
    matchesGlob t (dumpName ts t) = true := by
  simp only [matchesGlob, dumpName, decide_eq_true_eq, String.data_append]
  rw [List.append_assoc]
  exact List.suffix_append _ _

theorem getLast?_insertionSort_append_max (M : List (String × FittedModel))
    (x : String × FittedModel)
    (hmax : ∀ y ∈ M, lexLt y.1.data x.1.data = true) :
    (List.insertionSort nameLe (M ++ [x])).getLast? = some x := by
  have hperm := List.perm_insertionSort nameLe (M ++ [x])
  have hS : List.insertionSort nameLe (M ++ [x]) ≠ [] := by
    intro hnil
    have := hperm.length_eq
    rw [hnil] at this
    simp at this
  have hsorted := List.sorted_insertionSort nameLe (M ++ [x])
  have hg : (List.insertionSort nameLe (M ++ [x])).getLast hS ∈ M ++ [x] :=
    hperm.mem_iff.mp (List.getLast_mem hS)
  have hxS : x ∈ List.insertionSort nameLe (M ++ [x]) :=
    hperm.mem_iff.mpr (by simp)
  have hle := pairwise_nameLe_getLast _ hsorted hS x hxS
  rcases List.mem_append.mp hg with hM | hx
  · exfalso
    have h1 := hmax _ hM
    simp [nameLe, strLe, h1] at hle
  · rw [List.getLast?_eq_getLast _ hS, List.mem_singleton.mp hx]

/-- C8 (amended): when the active model is dumped and every file already in
the directory that matches the ticker glob has a name lexicographically
smaller than the dumped name (true in particular when nothing else matches),
an immediate load for the same ticker restores exactly the dumped model, so
predict_volatility on the loaded session agrees with the pre-save session at
every horizon. -/
theorem dump_then_load_roundtrip (ts : String) (dir : Dir) (s : Session)
    (m : FittedModel) (hm : s.model = some m)
    (hmax : ∀ e ∈ dir, matchesGlob s.ticker e.1 = true →
      lexLt e.1.data (dumpName ts s.ticker).data = true) :
    (load (dump ts dir s).1 s).1.model = some m ∧
    ∀ (sq : ℚ → ℚ) (H : Nat),
      predictSession sq (load (dump ts dir s).1 s).1 H = predictSession sq s H := by
  have hdir : (dump ts dir s).1 = dir ++ [(dumpName ts s.ticker, m)] := by
    simp [dump, hm]
  have hfilter : ((dir ++ [(dumpName ts s.ticker, m)]).filter
      fun e => matchesGlob s.ticker e.1)
      = (dir.filter fun e => matchesGlob s.ticker e.1)
        ++ [(dumpName ts s.ticker, m)] := by
    rw [List.filter_append]
    simp [matchesGlob_dumpName]
  have hsel : selectedArtifact s.ticker (dir ++ [(dumpName ts s.ticker, m)])
      = some (dumpName ts s.ticker, m) := by
    unfold selectedArtifact
    rw [hfilter]
    apply getLast?_insertionSort_append_max
    intro y hy
    have hmem := List.mem_filter.mp hy
    exact hmax y hmem.1 hmem.2
  have hload : load (dump ts dir s).1 s = ({ s with model := some m }, none) := by
    rw [hdir]
    unfold load
    rw [hsel]
  refine ⟨by rw [hload], ?_⟩
  intro sq H
  rw [hload]
  simp [predictSession, hm]

/-- The SFT session holding a fitted model, and an MSFT session. -/
def sessSFT : Session := fit mVar16 (init "SFT")

/-- A session for the instrument MSFT holding a different fitted model. -/
def sessMSFT : Session := fit mVar81 (init "MSFT")

/-- The directory after dumping the SFT model and then, later, the MSFT
model: a save for a different instrument, so none intervened for SFT. -/
def dirRT : Dir :=
  (dump "2024-01-02T10:00:00" (dump "2024-01-01T10:00:00" [] sessSFT).1 sessMSFT).1

/-- C8 counterexample: after dumping the SFT model, a later save for the
different instrument MSFT (whose identifier ends with the same characters)
makes load for SFT pick the MSFT artifact, because its name ends with the
SFT glob suffix and sorts later; the reloaded forecast then differs from the
pre-save forecast. -/
theorem roundtrip_defeated_by_foreign_artifact :
    (load dirRT sessSFT).1.model = some mVar81 ∧
    sessSFT.model = some mVar16 ∧
    predict_volatility qsqrt mVar81 1 ≠ predict_volatility qsqrt mVar16 1 :=
  ⟨rfl, rfl, by decide⟩

/-- C8 witness: the round-trip theorem instantiated with an empty directory
and a concrete timestamp. -/
theorem dump_then_load_roundtrip_witness :
    (load (dump "2024-01-01T10:00:00" [] sessSFT).1 sessSFT).1.model = some mVar16 ∧
    predictSession qsqrt (load (dump "2024-01-01T10:00:00" [] sessSFT).1 sessSFT).1 1
      = predictSession qsqrt sessSFT 1 :=
  ⟨(dump_then_load_roundtrip "2024-01-01T10:00:00" [] sessSFT mVar16 rfl
      (by intro e he; simp at he)).1,
   (dump_then_load_roundtrip "2024-01-01T10:00:00" [] sessSFT mVar16 rfl
      (by intro e he; simp at he)).2 qsqrt 1⟩

/-- C9: on a freshly constructed session the model attribute is absent, so
dump raises the AttributeError without writing any file (the directory is
returned unchanged) and predict_volatility raises the same error instead of
returning a forecast. -/
theorem fresh_session_attribute_error (t ts : String) (dir : Dir) (H : Nat)
    (sq : ℚ → ℚ) :
    dump ts dir (init t) = (dir, Except.error attrErrModel) ∧
    predictSession sq (init t) H = Except.error attrErrModel :=
  ⟨rfl, rfl⟩

/-- C10: load never touches the ticker, the working series or the exposed
aic and bic metrics, whichever branch it takes; hence after a fit followed by
a load the metrics still reflect the fit, not the loaded artifact. -/
theorem load_preserves_all_but_model (dir : Dir) (s : Session)
    (fitted : FittedModel) :
    ((load dir s).1.ticker = s.ticker ∧ (load dir s).1.data = s.data ∧
     (load dir s).1.aic = s.aic ∧ (load dir s).1.bic = s.bic) ∧
    ((load dir (fit fitted s)).1.aic = some fitted.aic ∧
     (load dir (fit fitted s)).1.bic = some fitted.bic) := by
  have frame : ∀ s2 : Session, (load dir s2).1.ticker = s2.ticker ∧
      (load dir s2).1.data = s2.data ∧
      (load dir s2).1.aic = s2.aic ∧ (load dir s2).1.bic = s2.bic := by
    intro s2
    unfold load
    cases h : selectedArtifact s2.ticker dir <;> simp
  refine ⟨frame s, ?_, ?_⟩
  · rw [(frame (fit fitted s)).2.2.1]
    rfl
  · rw [(frame (fit fitted s)).2.2.2]
    rfl

end Garch
